import Mathlib

/-!
Verification of the solar4x simulation core against its natural-language
specification.

The Rust source is shallowly embedded: `f64` values become `ℚ`, and the
transcendental operations (`sin`, `cos`, `sqrt`, the constant `π` and the
degree/radian conversion factor) are passed around in an explicit
environment `NumEnv`, so that every definition stays computable and the
embedded functions can be evaluated on concrete inputs.  Angles are kept in
degrees throughout (the source stores angles in degrees and converts to
radians only at each trigonometric call, so `NumEnv.sinDeg` stands for the
composite `fun x => sin (x.to_radians())`).
-/

/-- 3-component vector (`bevy::math::DVec3`), embedded componentwise over `ℚ`. -/
abbrev V3 : Type := ℚ × ℚ × ℚ

/-- 2-component vector (`bevy::math::DVec2`). -/
abbrev V2 : Type := ℚ × ℚ

/-- Environment of numeric primitives left abstract by the embedding:
`sinDeg x` stands for `sin (x.to_radians())`, `cosDeg x` for
`cos (x.to_radians())`, `sqrtq` for `f64::sqrt`, `piq` for `std::f64::consts::PI`
and `degFac` for the factor `180/π` used by `f64::to_degrees`. -/
structure NumEnv where
  sinDeg : ℚ → ℚ
  cosDeg : ℚ → ℚ
  sqrtq : ℚ → ℚ
  piq : ℚ
  degFac : ℚ

/-- Embeds `EllipticalOrbit` component from `src/physics/orbit.rs`. -/
structure EllipticalOrbit where
  eccentricity : ℚ
  semimajor_axis : ℚ
  inclination : ℚ
  long_asc_node : ℚ
  arg_periapsis : ℚ
  initial_mean_anomaly : ℚ
  revolution_period : ℚ
  mean_anomaly : ℚ
  eccentric_anomaly : ℚ
  orbital_position : V2
  orbital_velocity : V2
  local_pos : V3
  local_speed : V3
deriving DecidableEq

/-- Embeds `E_TOLERANCE` from `src/physics/orbit.rs`. -/
def E_TOLERANCE : ℚ := 1 / 1000000

/-- Modelled from the spec: `utils::algebra::mod_180` is not under `src/`.
Spec §4.1 step 1 describes it as "normalize-to-[-180,180] degrees". -/
def mod_180 (x : ℚ) : ℚ := x - 360 * ((round (x / 360) : ℤ) : ℚ)

/-- Embeds `EllipticalOrbit::update_M` from `src/physics/orbit.rs`. -/
def update_M (o : EllipticalOrbit) (time : ℚ) : EllipticalOrbit :=
  if o.revolution_period = 0 then o
  else { o with mean_anomaly :=
          mod_180 (o.initial_mean_anomaly + 360 * time / o.revolution_period) }

/-- One pass of the body of the `for _ in 0..10` loop of
`EllipticalOrbit::update_E`: the state is the current estimate `E` together
with the `break` flag (once the flag is set the remaining loop turns are
skipped). -/
def keplerLoopStep (env : NumEnv) (M e ed : ℚ) (s : ℚ × Bool) : ℚ × Bool :=
  if s.2 then s
  else
    let dM := M - (s.1 - ed * env.sinDeg s.1)
    let dE := dM / (1 - e * env.cosDeg s.1)
    if |dE| ≤ E_TOLERANCE then (s.1 + dE, true) else (s.1 + dE, false)

/-- Embeds `EllipticalOrbit::update_E` from `src/physics/orbit.rs`: calls `update_M`,
then runs the bounded Newton loop on the initial estimate
`E = M + ed * sin(M)`. -/
def update_E (env : NumEnv) (o : EllipticalOrbit) (time : ℚ) : EllipticalOrbit :=
  let o' := update_M o time
  let M := o'.mean_anomaly
  let e := o'.eccentricity
  let ed := e * env.degFac
  let E0 := M + ed * env.sinDeg M
  let E := ((List.range 10).foldl (fun s _ => keplerLoopStep env M e ed s) (E0, false)).1
  { o' with eccentric_anomaly := E }

/-- Embeds `EllipticalOrbit::update_orb_pos` from `src/physics/orbit.rs`. -/
def update_orb_pos (env : NumEnv) (o : EllipticalOrbit) (time : ℚ) : EllipticalOrbit :=
  let o' := update_E env o time
  let a := o'.semimajor_axis
  let E := o'.eccentric_anomaly
  let e := o'.eccentricity
  let x := a * (env.cosDeg E - e)
  let y := a * env.sqrtq (1 - e * e) * env.sinDeg E
  let o'' := { o' with orbital_position := (x, y) }
  if o''.revolution_period = 0 then o''
  else
    let Mdot := 2 * env.piq / o''.revolution_period
    let Edot := Mdot / (1 - e * env.cosDeg E)
    let Pdot := -a * env.sinDeg E * Edot
    let Qdot := a * env.cosDeg E * Edot * env.sqrtq (1 - e * e)
    { o'' with orbital_velocity := (Pdot, Qdot) }

/-- Modelled from the spec: `utils::algebra::rotate` is not under `src/`.
Spec §4.1 step 4: parent-frame vectors are obtained by "rotating the
orbital-plane vectors by argument of periapsis, longitude of ascending node,
and inclination (standard 3-1-3 Euler rotation sequence)"; this is the
standard rotation (as on the JPL page cited by the source), with the angles
given in degrees and the trigonometric functions taken from the environment. -/
def rotate (env : NumEnv) (v : V2) (o Om i : ℚ) : V3 :=
  let so := env.sinDeg o
  let co := env.cosDeg o
  let sO := env.sinDeg Om
  let cO := env.cosDeg Om
  let si := env.sinDeg i
  let ci := env.cosDeg i
  ((co * cO - so * sO * ci) * v.1 + (-so * cO - co * sO * ci) * v.2,
   (co * sO + so * cO * ci) * v.1 + (-so * sO + co * cO * ci) * v.2,
   (so * si) * v.1 + (co * si) * v.2)

/-- Embeds `EllipticalOrbit::update_pos` from `src/physics/orbit.rs`. -/
def update_pos (env : NumEnv) (o : EllipticalOrbit) (time : ℚ) : EllipticalOrbit :=
  let o' := update_orb_pos env o time
  { o' with
    local_pos := rotate env o'.orbital_position o'.arg_periapsis o'.long_asc_node o'.inclination,
    local_speed := rotate env o'.orbital_velocity o'.arg_periapsis o'.long_asc_node o'.inclination }

/-- The eccentric-anomaly iteration exactly as the spec words it (§4.1 step 2):
"iterate up to `n` times, each step computing residual
`dM = M − (E − e_deg·sin(E in radians))` and correction
`dE = dM / (1 − e·cos(E in radians))`, updating `E += dE`; stop early once
`|dE| ≤ 1e-6`"; when the iteration cap is reached the last estimate is
accepted. -/
def specKeplerIter (env : NumEnv) (M e ed : ℚ) : ℕ → ℚ → ℚ
  | 0, E => E
  | n + 1, E =>
    let dM := M - (E - ed * env.sinDeg E)
    let dE := dM / (1 - e * env.cosDeg E)
    let E' := E + dE
    if |dE| ≤ E_TOLERANCE then E' else specKeplerIter env M e ed n E'

/-- The complete spec scheme (§4.1 step 2): with `e_deg = e.to_degrees()`,
start from `E₀ = M + e_deg·sin(M in radians)` and run at most 10 Newton
corrections. -/
def specNewtonE (env : NumEnv) (M e : ℚ) : ℚ :=
  let ed := e * env.degFac
  specKeplerIter env M e ed 10 (M + ed * env.sinDeg M)

/-- Concrete environment used by witnesses; its values agree with the real
trigonometric functions on the arguments actually reached (`sin 0 = 0`,
`cos 0 = 1`, `√1 = 1`). -/
def envW : NumEnv :=
  { sinDeg := fun _ => 0
    cosDeg := fun _ => 1
    sqrtq := fun _ => 1
    piq := 3
    degFac := 57 }

/-- Orbit record with every derived field zeroed, one revolution per day. -/
def orbW : EllipticalOrbit :=
  { eccentricity := 0
    semimajor_axis := 2
    inclination := 0
    long_asc_node := 0
    arg_periapsis := 0
    initial_mean_anomaly := 0
    revolution_period := 1
    mean_anomaly := 0
    eccentric_anomaly := 0
    orbital_position := (0, 0)
    orbital_velocity := (0, 0)
    local_pos := (0, 0, 0)
    local_speed := (0, 0, 0) }

/-- Orbit record with zero revolution period but nonzero semimajor axis. -/
def orbZeroPeriod : EllipticalOrbit :=
  { eccentricity := 0
    semimajor_axis := 1
    inclination := 0
    long_asc_node := 0
    arg_periapsis := 0
    initial_mean_anomaly := 0
    revolution_period := 0
    mean_anomaly := 0
    eccentric_anomaly := 0
    orbital_position := (0, 0)
    orbital_velocity := (0, 0)
    local_pos := (0, 0, 0)
    local_speed := (0, 0, 0) }

/-- The data `update_global` reads from a body entity: its `BodyID`, the
`orbiting_bodies` list of its `BodyInfo`, and the parent-frame vectors of its
`EllipticalOrbit` component. -/
structure BodyRec where
  id : String
  orbiting_bodies : List String
  local_pos : V3
  local_speed : V3
deriving DecidableEq

/-- The body catalog as `update_global` sees it: the `PrimaryBody` id together
with the spawned bodies (the composition of `BodiesMapping` and the ECS query:
both lookups are by id and a miss at either level skips the body). -/
structure Catalog where
  primary_id : String
  bodies : List BodyRec
deriving DecidableEq

def Catalog.find (cat : Catalog) (id : String) : Option BodyRec :=
  cat.bodies.find? (fun b => b.id == id)

def Catalog.ids (cat : Catalog) : List String := cat.bodies.map (·.id)

/-- World-space `Position`/`Velocity` components, keyed by body id. -/
abbrev GlobalStore : Type := List (String × (V3 × V3))

def storeSet (st : GlobalStore) (id : String) (pv : V3 × V3) : GlobalStore :=
  (id, pv) :: st

def storeGet (st : GlobalStore) (id : String) : Option (V3 × V3) :=
  st.lookup id

/-- The `while i < queue.len()` loop of `update_global` from
`src/physics/orbit.rs`: entries are read in FIFO order (scanning a growing
vector by increasing index is the same as popping from the front), each found
body gets world position/velocity = accumulator + its parent-frame vectors,
and its `orbiting_bodies` are enqueued with the freshly written world vectors
as their accumulator.  The fuel argument models the unbounded loop (`none`
means the loop was still running after `fuel` turns); the returned list logs
the processed bodies in traversal order. -/
def processQueue (cat : Catalog) :
    ℕ → List (String × (V3 × V3)) → GlobalStore → Option (GlobalStore × List String)
  | _, [], st => some (st, [])
  | 0, _ :: _, _ => none
  | f + 1, (id, acc) :: rest, st =>
    match cat.find id with
    | none => processQueue cat f rest st
    | some b =>
      let pos := acc.1 + b.local_pos
      let vel := acc.2 + b.local_speed
      match processQueue cat f (rest ++ b.orbiting_bodies.map (fun c => (c, (pos, vel))))
          (storeSet st id (pos, vel)) with
      | none => none
      | some (st', l) => some (st', id :: l)

/-- Embeds `update_global` from `src/physics/orbit.rs`: the queue starts with the
primary body and the zero accumulator; the fuel is instantiated with the
number of bodies (shown sufficient for tree catalogs below). -/
def update_global (cat : Catalog) (st : GlobalStore) : Option (GlobalStore × List String) :=
  processQueue cat cat.bodies.length [(cat.primary_id, (0, 0))] st

/-- The catalog parent graph is a tree rooted at the primary body: distinct
ids, the primary body is a catalog body and is nobody's child, every child id
names a catalog body, children lists have no duplicates, and every body is
the child of at most one parent. -/
def IsTree (cat : Catalog) : Prop :=
  cat.ids.Nodup ∧ cat.primary_id ∈ cat.ids ∧
    (∀ b ∈ cat.bodies, b.orbiting_bodies.Nodup ∧
      ∀ c ∈ b.orbiting_bodies, c ∈ cat.ids ∧ c ≠ cat.primary_id) ∧
    (∀ b1 ∈ cat.bodies, ∀ b2 ∈ cat.bodies, ∀ c,
      c ∈ b1.orbiting_bodies → c ∈ b2.orbiting_bodies → b1 = b2)

/-- A body is reachable from the primary body along `orbiting_bodies` edges. -/
inductive Reachable (cat : Catalog) : String → Prop
  | prim : Reachable cat cat.primary_id
  | child {pid c : String} {b : BodyRec} (hp : Reachable cat pid)
      (hf : cat.find pid = some b) (hc : c ∈ b.orbiting_bodies) : Reachable cat c

/-- Path sums: `WorldVal cat id p v` holds when `(p, v)` is the sum of the parent-frame
position/velocity vectors along the path from the primary body to `id`
(each body contributing its own local vectors, the accumulator starting at
zero above the primary body). -/
inductive WorldVal (cat : Catalog) : String → V3 → V3 → Prop
  | prim {b : BodyRec} (hf : cat.find cat.primary_id = some b) :
      WorldVal cat cat.primary_id b.local_pos b.local_speed
  | child {pid c : String} {p v : V3} {pb cb : BodyRec} (hw : WorldVal cat pid p v)
      (hf : cat.find pid = some pb) (hc : c ∈ pb.orbiting_bodies)
      (hcf : cat.find c = some cb) :
      WorldVal cat c (p + cb.local_pos) (v + cb.local_speed)

/-- Three-body tree catalog used by witnesses. -/
def catW : Catalog :=
  { primary_id := "soleil"
    bodies :=
      [ { id := "soleil", orbiting_bodies := ["terre"],
          local_pos := (0, 0, 0), local_speed := (0, 0, 0) },
        { id := "terre", orbiting_bodies := ["lune"],
          local_pos := (5, 0, 0), local_speed := (0, 1, 0) },
        { id := "lune", orbiting_bodies := [],
          local_pos := (1, 0, 0), local_speed := (0, 0, 0) } ] }

instance (cat : Catalog) : Decidable (IsTree cat) := by
  unfold IsTree
  infer_instance

/-- Embeds `ShipInfo` from `src/objects/ships.rs` (ids embedded as `String`,
ignoring the `MAX_ID_LENGTH` bound which no claim touches). -/
structure ShipInfo where
  id : String
  spawn_pos : V3
  spawn_speed : V3
deriving DecidableEq

/-- ECS entity handle. -/
abbrev Entity : Type := ℕ

/-- Embeds `ShipsMapping` resource: ship id → entity handle. -/
abbrev ShipRegistry : Type := List (String × Entity)

/-- Per-entity `Position`/`Velocity` components of ships. -/
abbrev KinStore : Type := List (Entity × (V3 × V3))

def kinSet (kin : KinStore) (e : Entity) (pv : V3 × V3) : KinStore :=
  (e, pv) :: kin

/-- Embeds `PeriodicUpdate` wire message from `src/network.rs`. -/
structure PeriodicUpdateMsg where
  time : ℕ
  ships : List (String × V3 × V3)
deriving DecidableEq

/-- Embeds `ServerMessage` from `src/network.rs` (the two config payloads abstracted
to a numeric descriptor, which no claim inspects). -/
inductive ServerMessage
  | BodiesConfig (cfg : ℕ)
  | UpdateTime (simtick : ℕ)
  | ToggleTime (b : Bool)
  | InitialData (cfg : ℕ) (toggle_time : Bool)
  | PeriodicUpdate (m : PeriodicUpdateMsg)
deriving DecidableEq

/-- The client-side state touched by `handle_server_messages`
(`src/client.rs`): `GameTime.simtick`, `ToggleTime`, the `BodiesConfig`
resource, the sync status, the `ShipsMapping` and the ships' kinematic
components. -/
structure ClientState where
  simtick : ℕ
  toggle_time : Bool
  bodies_config : ℕ
  synced : Bool
  ships : ShipRegistry
  kin : KinStore
deriving DecidableEq

/-- One `(id, pos, velocity)` entry of a `PeriodicUpdate`, as processed by
`handle_server_messages`: a registry miss is skipped (`None => ()`); a hit
runs `query.get_mut(*entity).unwrap()` (modelled as `none` — a panic — when
the entity has no components) and overwrites position and velocity. -/
def applyEntry (ships : ShipRegistry) (kin : KinStore) (entry : String × V3 × V3) :
    Option KinStore :=
  match List.lookup entry.1 ships with
  | some ent =>
    match List.lookup ent kin with
    | some _ => some (kinSet kin ent (entry.2.1, entry.2.2))
    | none => none
  | none => some kin

def applyEntries (ships : ShipRegistry) : KinStore → List (String × V3 × V3) → Option KinStore
  | kin, [] => some kin
  | kin, e :: rest =>
    match applyEntry ships kin e with
    | some kin' => applyEntries ships kin' rest
    | none => none

/-- Embeds `handle_server_messages` from `src/client.rs`, one received message. -/
def handleServerMessage (s : ClientState) : ServerMessage → Option ClientState
  | ServerMessage.BodiesConfig cfg => some { s with bodies_config := cfg, synced := true }
  | ServerMessage.UpdateTime t => some { s with simtick := t }
  | ServerMessage.InitialData cfg tg =>
    some { s with bodies_config := cfg, toggle_time := tg, synced := true }
  | ServerMessage.ToggleTime b => some { s with toggle_time := b }
  | ServerMessage.PeriodicUpdate m =>
    (applyEntries s.ships s.kin m.ships).map fun k => { s with simtick := m.time, kin := k }

/-- Client state with one registered, spawned ship used by witnesses. -/
def clientW : ClientState :=
  { simtick := 0
    toggle_time := true
    bodies_config := 0
    synced := true
    ships := [("a", 1)]
    kin := [(1, ((0, 0, 0), (0, 0, 0)))] }

/-- A periodic update carrying one known ship and one not-yet-created ship. -/
def periodicW : PeriodicUpdateMsg :=
  { time := 7
    ships := [("a", (1, 2, 3), (4, 5, 6)), ("ghost", (9, 9, 9), (8, 8, 8))] }

/-- Client state at tick 5 for the C6 counterexample. -/
def clientFive : ClientState :=
  { simtick := 5
    toggle_time := true
    bodies_config := 0
    synced := true
    ships := []
    kin := [] }

/-- Modelled from the spec: the fixed-tick clock-advance system lives in
`physics/time.rs`, which is not under `src/`.  Spec §4.4: "While Running,
each fixed tick increments the tick counter by 1"; the
`run_if(resource_equals(ToggleTime(true)))` gate configured on the whole
`FixedUpdate` physics chain in `src/physics.rs` means the time update does
not run while paused, leaving the counter unchanged. -/
def schedulerStep (toggle_time : Bool) (simtick : ℕ) : ℕ :=
  if toggle_time then simtick + 1 else simtick

/-- Simulated time as the spec defines it: tick counter × step size (days). -/
def simulatedTime (simtick step_size : ℕ) : ℕ := simtick * step_size

/-- Embeds `bevy_quinnet` channel types used by `channels_configuration`. -/
inductive ChannelKind
  | OrderedReliable
  | Unreliable
deriving DecidableEq

/-- Embeds `ServerChannel::channels_configuration()` from `src/network.rs`:
channel 0 is ordered-reliable, channel 1 is unreliable. -/
def serverChannelsConfiguration : List ChannelKind :=
  [ChannelKind.OrderedReliable, ChannelKind.Unreliable]

/-- Embeds `ServerChannel` from `src/network.rs` (`#[repr(u8)]`, so `Once = 0` and
`PeriodicUpdates = 1` are the channel ids). -/
inductive ServerChannelName
  | Once
  | PeriodicUpdates
deriving DecidableEq

def ServerChannelName.channelId : ServerChannelName → ℕ
  | ServerChannelName.Once => 0
  | ServerChannelName.PeriodicUpdates => 1

/-- Embeds `send_periodic_updates` from `src/server.rs`: when the repeating
wall-clock timer has finished this frame, push every ship's
`(id, position, velocity)` into a vector and call
`try_broadcast_message_on(ServerChannel::PeriodicUpdates, ...)` exactly once;
otherwise send nothing.  The returned list is the sequence of
`(channel id, message)` sends performed. -/
def sendPeriodicUpdates (timerFinished : Bool) (simtick : ℕ)
    (ships : List (ShipInfo × V3 × V3)) : List (ℕ × ServerMessage) :=
  if timerFinished then
    let alpha := ships.foldl (fun acc s => acc ++ [(s.1.id, s.2.1, s.2.2)]) []
    [(ServerChannelName.channelId ServerChannelName.PeriodicUpdates,
      ServerMessage.PeriodicUpdate { time := simtick, ships := alpha })]
  else []

/-- Embeds `HashMap::entry(k).or_insert(v)`: keep the existing binding when the key
is present, insert `v` otherwise. -/
def entryOrInsert (m : ShipRegistry) (k : String) (v : Entity) : ShipRegistry :=
  match List.lookup k m with
  | some _ => m
  | none => (k, v) :: m

/-- Embeds `CreateShipMsg` from `src/objects/ships.rs`. -/
structure CreateShipMsg where
  info : ShipInfo
  acceleration : V3
  pos : V3
  velocity : V3
deriving DecidableEq

/-- Embeds `ClientMessage::CreateShipMsg` handling in `handle_client_messages`
(`src/server.rs`): `ships.0.entry(msg.info.id).or_insert({ ..spawn.. })`.
The spawn argument of `or_insert` is evaluated eagerly, so a fresh entity
carrying the message's position/velocity is spawned regardless; the registry
keeps the already-registered handle when the id is present. -/
def handleCreateShipMsg (ships : ShipRegistry) (kin : KinStore) (msg : CreateShipMsg)
    (fresh : Entity) : ShipRegistry × KinStore :=
  (entryOrInsert ships msg.info.id fresh, kinSet kin fresh (msg.pos, msg.velocity))

/-- Embeds `ShipEvent::Create` handling in `handle_ship_events`
(`src/objects/ships.rs`): the same `entry(..).or_insert(spawn)` shape,
spawning at the ship's `spawn_pos`/`spawn_speed`. -/
def handleShipEventCreate (ships : ShipRegistry) (kin : KinStore) (info : ShipInfo)
    (fresh : Entity) : ShipRegistry × KinStore :=
  (entryOrInsert ships info.id fresh, kinSet kin fresh (info.spawn_pos, info.spawn_speed))

/-- Ship record used by the C8 witness. -/
def shipInfoW : ShipInfo :=
  { id := "s", spawn_pos := (1, 0, 0), spawn_speed := (0, 1, 0) }

def digitsToNat (cs : List Char) : ℕ :=
  cs.foldl (fun n c => 10 * n + (c.toNat - 48)) 0

/-- Embeds `str::parse::<u64>` as `set_time_scale` uses it: strings of decimal
digits parse, anything else reports an error (the `u64` overflow bound is
ignored; no claim depends on it). -/
def parseNatU64 (s : String) : Option ℕ :=
  if s.data ≠ [] ∧ s.data.all Char.isDigit then some (digitsToNat s.data) else none

/-- Embeds `str::parse::<f64>` as `test_set_pos` uses it, on the decimal literals
the console accepts: optional sign, integer digits, optional fractional
part; anything else fails. -/
def parseF64 (s : String) : Option ℚ :=
  let core := fun (cs : List Char) (sgn : ℚ) =>
    let ip := cs.takeWhile Char.isDigit
    let rest := cs.dropWhile Char.isDigit
    match rest with
    | [] => if ip = [] then none else some (sgn * (digitsToNat ip : ℚ))
    | '.' :: fp =>
      if fp.all Char.isDigit ∧ (ip ≠ [] ∨ fp ≠ []) then
        some (sgn * ((digitsToNat ip : ℚ) + (digitsToNat fp : ℚ) / (10 : ℚ) ^ fp.length))
      else none
    | _ => none
  match s.data with
  | '-' :: cs => core cs (-1)
  | '+' :: cs => core cs 1
  | cs => core cs 1

/-- Embeds `set_time_scale` from `src/server.rs`: with no argument only the current
step size is printed; with an argument that parses, the step size is set to
it; a parse failure prints the error and leaves the step size untouched.
Returns the new step size and the console lines printed. -/
def setTimeScale (sim_step_size : ℕ) (args : List String) : ℕ × List String :=
  match args with
  | [] => (sim_step_size, ["Current timescale"])
  | arg1 :: _ =>
    match parseNatU64 arg1 with
    | some tmp => (tmp, ["Current timescale"])
    | none => (sim_step_size, ["timescale is a u64, Error", "Current timescale"])

/-- Ship `Position` components, keyed by entity. -/
abbrev PosStore : Type := List (Entity × V3)

def posSet (st : PosStore) (e : Entity) (p : V3) : PosStore :=
  (e, p) :: st

/-- Embeds `test_set_pos` from `src/server.rs`: the first token is looked up as a
ship id (no token prints "wrong ID"); each of the next three tokens is parsed
as a coordinate, a parse failure printing the error and defaulting that
coordinate to 0, a missing token printing "wrong pos" and defaulting to 0;
when the id was found, `query.get_mut(*entity).unwrap()` (a panic, modelled
`none`, if the entity has no `Position`) overwrites the three position
components; when it was not found, nothing is written.  Returns the position
store and the console lines printed. -/
def testSetPos (ships : ShipRegistry) (store : PosStore) (args : List String) :
    Option (PosStore × List String) :=
  let idr : Option Entity × List String :=
    match args.get? 0 with
    | some a => (List.lookup a ships, [])
    | none => (none, ["wrong ID"])
  let p1 : ℚ × List String :=
    match args.get? 1 with
    | some a =>
      match parseF64 a with
      | some q => (q, [])
      | none => (0, ["err"])
    | none => (0, ["wrong pos"])
  let p2 : ℚ × List String :=
    match args.get? 2 with
    | some a =>
      match parseF64 a with
      | some q => (q, [])
      | none => (0, ["err"])
    | none => (0, ["wrong pos"])
  let p3 : ℚ × List String :=
    match args.get? 3 with
    | some a =>
      match parseF64 a with
      | some q => (q, [])
      | none => (0, ["err"])
    | none => (0, ["wrong pos"])
  let out := idr.2 ++ p1.2 ++ p2.2 ++ p3.2
  match idr.1 with
  | some ent =>
    match List.lookup ent store with
    | some _ => some (posSet store ent (p1.1, p2.1, p3.1), out)
    | none => none
  | none => some (store, out)

/-- Registry and position store used by the C7 witness. -/
def shipsW : ShipRegistry := [("s1", 2)]

def posStoreW : PosStore := [(2, (0, 0, 0))]

/-- Embeds `DVec3::length()` of a world position: the square root of the sum of the
squared components, the square root taken from the environment. -/
def posLength (env : NumEnv) (v : V3) : ℚ :=
  env.sqrtq (v.1 * v.1 + v.2.1 * v.2.1 + v.2.2 * v.2.2)

/-- Embeds `Iterator::max_by(total_cmp)` as `insert_system_size` uses it: fold the
lengths keeping the largest value seen (`None` for an empty iterator). -/
def maxByTotalCmp (l : List ℚ) : Option ℚ :=
  l.foldl (fun acc x =>
    match acc with
    | none => some x
    | some m => if x < m then some m else some x) none

/-- Embeds `insert_system_size` from `src/physics/orbit.rs`:
`body_positions.iter().map(|pos| pos.0.length()).max_by(..).unwrap()`;
`none` models the `unwrap` panic on an empty body query. -/
def insert_system_size (env : NumEnv) (positions : List V3) : Option ℚ :=
  maxByTotalCmp (positions.map (posLength env))

theorem keplerLoop_absorb (env : NumEnv) (M e ed : ℚ) :
    ∀ (n : ℕ) (E : ℚ),
      (List.range n).foldl (fun s _ => keplerLoopStep env M e ed s) (E, true) = (E, true) := by
  intro n
  induction n with
  | zero => intro E; simp
  | succ m ih =>
    intro E
    rw [List.range_succ_eq_map, List.foldl_cons, List.foldl_map]
    have hstep : keplerLoopStep env M e ed (E, true) = (E, true) := by
      simp [keplerLoopStep]
    rw [hstep, ih]

theorem keplerLoop_eq_specIter (env : NumEnv) (M e ed : ℚ) :
    ∀ (n : ℕ) (E : ℚ),
      ((List.range n).foldl (fun s _ => keplerLoopStep env M e ed s) (E, false)).1 =
        specKeplerIter env M e ed n E := by
  intro n
  induction n with
  | zero => intro E; simp [specKeplerIter]
  | succ m ih =>
    intro E
    rw [List.range_succ_eq_map, List.foldl_cons, List.foldl_map]
    by_cases h : |(M - (E - ed * env.sinDeg E)) / (1 - e * env.cosDeg E)| ≤ E_TOLERANCE
    · have hstep : keplerLoopStep env M e ed (E, false) =
          (E + (M - (E - ed * env.sinDeg E)) / (1 - e * env.cosDeg E), true) := by
        simp [keplerLoopStep, h]
      rw [hstep, keplerLoop_absorb]
      simp [specKeplerIter, h]
    · have hstep : keplerLoopStep env M e ed (E, false) =
          (E + (M - (E - ed * env.sinDeg E)) / (1 - e * env.cosDeg E), false) := by
        simp [keplerLoopStep, h]
      rw [hstep, ih]
      simp [specKeplerIter, h]

/-- C1: for every body with a nonzero revolution period and every simulated
time `t`, `update_E` computes the eccentric anomaly exactly by the spec's
fixed-iteration Newton scheme applied to the normalized mean anomaly `M` and
`e_deg = e.to_degrees()`: it starts from `E₀ = M + e_deg·sin M`, performs at
most 10 corrections `dE = (M − (E − e_deg·sin E)) / (1 − e·cos E)`, stops
early once `|dE| ≤ 1e-6`, and accepts the last estimate when the cap is
reached, signalling no error. -/
theorem update_E_follows_spec_scheme (env : NumEnv) (o : EllipticalOrbit) (t : ℚ)
    (h : o.revolution_period ≠ 0) :
    (update_E env o t).eccentric_anomaly =
      specNewtonE env (mod_180 (o.initial_mean_anomaly + 360 * t / o.revolution_period))
        o.eccentricity := by
  have hM : update_M o t =
      { o with mean_anomaly := mod_180 (o.initial_mean_anomaly + 360 * t / o.revolution_period) } := by
    simp [update_M, h]
  simp only [update_E, hM, specNewtonE]
  exact keplerLoop_eq_specIter env _ _ _ 10 _

theorem update_E_follows_spec_scheme_witness :
    orbW.revolution_period ≠ 0 ∧
      (update_E envW orbW 0).eccentric_anomaly =
        specNewtonE envW (mod_180 (orbW.initial_mean_anomaly + 360 * 0 / orbW.revolution_period))
          orbW.eccentricity :=
  ⟨by decide, update_E_follows_spec_scheme envW orbW 0 (by decide)⟩

/-- C3 counterexample: a body whose revolution period equals 0 does NOT in
general keep local position (0,0,0): with semimajor axis 1 (all angles and
anomalies 0, matching real trigonometry at the arguments reached) the update
puts the body at parent-frame position (1,0,0). -/
theorem update_pos_zero_period_not_origin :
    orbZeroPeriod.revolution_period = 0 ∧
      (update_pos envW orbZeroPeriod 0).local_pos = (1, 0, 0) ∧
      (update_pos envW orbZeroPeriod 0).local_pos ≠ (0, 0, 0) := by
  have hM : update_M orbZeroPeriod 0 = orbZeroPeriod := by
    simp [update_M, orbZeroPeriod]
  have hE : update_E envW orbZeroPeriod 0 = orbZeroPeriod := by
    simp only [update_E, hM]
    rw [keplerLoop_eq_specIter]
    norm_num [orbZeroPeriod, envW, specKeplerIter, E_TOLERANCE]
  have horb : update_orb_pos envW orbZeroPeriod 0 =
      { orbZeroPeriod with orbital_position := (1, 0) } := by
    simp only [update_orb_pos, hE]
    norm_num [orbZeroPeriod, envW]
  have h : (update_pos envW orbZeroPeriod 0).local_pos = (1, 0, 0) := by
    simp only [update_pos, horb]
    norm_num [rotate, envW, orbZeroPeriod]
  exact ⟨rfl, h, by rw [h]; decide⟩

theorem rotate_zero (env : NumEnv) (o Om i : ℚ) : rotate env 0 o Om i = 0 := by
  simp [rotate]

/-- C3 (amended): for every body whose revolution period equals 0 AND whose
semimajor axis equals 0 (the actual primary-body configuration), starting
from zero orbital-plane velocity, the per-body orbital update leaves the
parent-frame (local) position and velocity at (0,0,0). -/
theorem update_pos_zero_period_zero_axis_fixed (env : NumEnv) (o : EllipticalOrbit) (t : ℚ)
    (hT : o.revolution_period = 0) (ha : o.semimajor_axis = 0)
    (hv : o.orbital_velocity = (0, 0)) :
    (update_pos env o t).local_pos = (0, 0, 0) ∧
      (update_pos env o t).local_speed = (0, 0, 0) := by
  have hE : ∀ oE : EllipticalOrbit, (update_E env oE t).semimajor_axis = oE.semimajor_axis ∧
      (update_E env oE t).revolution_period = oE.revolution_period ∧
      (update_E env oE t).orbital_velocity = oE.orbital_velocity := by
    intro oE
    simp [update_E, update_M]
    by_cases h : oE.revolution_period = 0 <;> simp [h]
  obtain ⟨ha', hT', hv'⟩ := hE o
  set oE := update_E env o t with hoE
  have horb : update_orb_pos env o t =
      { oE with orbital_position := (oE.semimajor_axis * (env.cosDeg oE.eccentric_anomaly - oE.eccentricity),
          oE.semimajor_axis * env.sqrtq (1 - oE.eccentricity * oE.eccentricity) * env.sinDeg oE.eccentric_anomaly) } := by
    simp only [update_orb_pos, ← hoE]
    rw [if_pos]
    simp [hT', hT]
  have haxis : oE.semimajor_axis = 0 := by rw [ha', ha]
  have hvel : oE.orbital_velocity = (0, 0) := by rw [hv', hv]
  simp [update_pos, horb, haxis, hvel, rotate_zero]

theorem update_pos_zero_period_zero_axis_fixed_witness :
    (orbZeroPeriod.revolution_period = 0 ∧ (0 : ℚ) = 0 ∧ orbZeroPeriod.orbital_velocity = (0, 0)) ∧
      ((update_pos envW { orbZeroPeriod with semimajor_axis := 0 } 0).local_pos = (0, 0, 0) ∧
        (update_pos envW { orbZeroPeriod with semimajor_axis := 0 } 0).local_speed = (0, 0, 0)) :=
  ⟨⟨rfl, rfl, rfl⟩,
   update_pos_zero_period_zero_axis_fixed envW { orbZeroPeriod with semimajor_axis := 0 } 0
     (by decide) (by decide) (by decide)⟩

theorem find_spec {cat : Catalog} {id : String} {b : BodyRec} (h : cat.find id = some b) :
    b ∈ cat.bodies ∧ b.id = id := by
  refine ⟨List.mem_of_find?_eq_some h, ?_⟩
  have := List.find?_some h
  simpa using this

theorem find_isSome_of_mem {cat : Catalog} {id : String} (h : id ∈ cat.ids) :
    ∃ b, cat.find id = some b ∧ b ∈ cat.bodies ∧ b.id = id := by
  obtain ⟨b, hb, hbid⟩ := List.mem_map.mp h
  have : (cat.find id).isSome := by
    rw [Catalog.find, List.find?_isSome]
    exact ⟨b, hb, by simp [hbid]⟩
  obtain ⟨b', hb'⟩ := Option.isSome_iff_exists.mp this
  exact ⟨b', hb', (find_spec hb').1, (find_spec hb').2⟩

theorem storeGet_set_self (st : GlobalStore) (id : String) (pv : V3 × V3) :
    storeGet (storeSet st id pv) id = some pv := by
  simp [storeGet, storeSet, List.lookup]

theorem storeGet_set_ne (st : GlobalStore) {id id' : String} (h : id' ≠ id) (pv : V3 × V3) :
    storeGet (storeSet st id pv) id' = storeGet st id' := by
  simp [storeGet, storeSet, List.lookup, beq_false_of_ne h]

theorem WorldVal.reachable {cat : Catalog} {id : String} {p v : V3}
    (h : WorldVal cat id p v) : Reachable cat id := by
  induction h with
  | prim hf => exact Reachable.prim
  | child hw hf hc hcf ih => exact Reachable.child ih hf hc

theorem processQueue_main (cat : Catalog) (hT : IsTree cat) :
    ∀ (f : ℕ) (q : List (String × (V3 × V3))) (visited : List String) (st : GlobalStore),
      (visited ++ q.map Prod.fst).Nodup →
      (∀ id ∈ visited, id ∈ cat.ids) →
      (∀ id ∈ q.map Prod.fst, id ∈ cat.ids) →
      (∀ b ∈ cat.bodies, ∀ c ∈ b.orbiting_bodies, b.id ∉ visited →
        c ∉ visited ++ q.map Prod.fst) →
      (∀ id ∈ q.map Prod.fst, Reachable cat id) →
      cat.ids.length ≤ f + visited.length →
      ∃ st' l, processQueue cat f q st = some (st', l) ∧
        (visited ++ l).Nodup ∧
        (∀ id ∈ l, id ∈ cat.ids ∧ Reachable cat id) ∧
        (∀ p ∈ q, p.1 ∈ l) ∧
        (∀ p ∈ q, ∀ b, cat.find p.1 = some b →
          storeGet st' p.1 = some (p.2.1 + b.local_pos, p.2.2 + b.local_speed)) ∧
        (∀ id, id ∉ l → storeGet st' id = storeGet st id) ∧
        (∀ id ∈ l, ∀ b, cat.find id = some b → ∀ c ∈ b.orbiting_bodies, c ∈ l ∧
          ∀ cb, cat.find c = some cb → ∃ wp wv, storeGet st' id = some (wp, wv) ∧
            storeGet st' c = some (wp + cb.local_pos, wv + cb.local_speed)) := by
  obtain ⟨hnd, hprim, hch, huniq⟩ := hT
  intro f
  induction f with
  | zero =>
    rintro (_ | ⟨⟨id, acc⟩, rest⟩) visited st h1 h2 h3 h4 h5 hfuel
    · exact ⟨st, [], rfl, by simpa using h1, by simp, by simp, by simp,
        fun i _ => rfl, by simp⟩
    · exfalso
      have hsub : (visited ++ ((id, acc) :: rest).map Prod.fst) ⊆ cat.ids := by
        intro x hx
        rcases List.mem_append.mp hx with hx | hx
        · exact h2 x hx
        · exact h3 x hx
      have hlen := (h1.subperm hsub).length_le
      simp at hlen
      omega
  | succ f ih =>
    rintro (_ | ⟨⟨id, acc⟩, rest⟩) visited st h1 h2 h3 h4 h5 hfuel
    · exact ⟨st, [], rfl, by simpa using h1, by simp, by simp, by simp,
        fun i _ => rfl, by simp⟩
    · have h1' : (visited ++ (id :: rest.map Prod.fst)).Nodup := by simpa using h1
      obtain ⟨hv, hcons, hdisj⟩ := List.nodup_append.mp h1'
      have hidr : id ∉ rest.map Prod.fst := (List.nodup_cons.mp hcons).1
      have hrnd : (rest.map Prod.fst).Nodup := (List.nodup_cons.mp hcons).2
      have hvdisj : ∀ a ∈ visited, a ≠ id ∧ a ∉ rest.map Prod.fst := by
        intro a ha
        have h := List.disjoint_left.mp hdisj ha
        refine ⟨fun hEq => h (hEq ▸ List.mem_cons_self id _), fun hm => h (List.mem_cons_of_mem _ hm)⟩
      have hidnv : id ∉ visited := fun hmem => (hvdisj id hmem).1 rfl
      have hid : id ∈ cat.ids := h3 id (by simp)
      obtain ⟨b, hfb, hbmem, hbid⟩ := find_isSome_of_mem hid
      have hchfresh : ∀ c ∈ b.orbiting_bodies,
          c ∉ visited ∧ c ≠ id ∧ c ∉ rest.map Prod.fst := by
        intro c hc
        have hces := h4 b hbmem c hc (by rwa [hbid])
        simp only [List.map_cons, List.mem_append, List.mem_cons, not_or] at hces
        exact ⟨hces.1, hces.2.1, hces.2.2⟩
      have hchsub : ∀ c ∈ b.orbiting_bodies, c ∈ cat.ids ∧ c ≠ cat.primary_id :=
        (hch b hbmem).2
      have hchnd : b.orbiting_bodies.Nodup := (hch b hbmem).1
      have hmapch : (b.orbiting_bodies.map
          (fun c => (c, (acc.1 + b.local_pos, acc.2 + b.local_speed)))).map Prod.fst =
          b.orbiting_bodies := by
        rw [List.map_map]
        simp [Function.comp_def]
      have H1 : ((visited ++ [id]) ++ (rest ++ b.orbiting_bodies.map
          (fun c => (c, (acc.1 + b.local_pos, acc.2 + b.local_speed)))).map Prod.fst).Nodup := by
        rw [List.map_append, hmapch, List.nodup_append]
        refine ⟨?_, ?_, ?_⟩
        · rw [List.nodup_append]
          refine ⟨hv, List.nodup_singleton id, ?_⟩
          intro a ha hm
          exact (hvdisj a ha).1 (by simpa using hm)
        · rw [List.nodup_append]
          refine ⟨hrnd, hchnd, ?_⟩
          intro a ha hc
          exact (hchfresh a hc).2.2 ha
        · intro a ha hmem
          rcases List.mem_append.mp hmem with hm | hm
          · rcases List.mem_append.mp ha with ha' | ha'
            · exact (hvdisj a ha').2 hm
            · exact hidr ((by simpa using ha' : a = id) ▸ hm)
          · rcases List.mem_append.mp ha with ha' | ha'
            · exact (hchfresh a hm).1 ha'
            · exact (hchfresh a hm).2.1 (by simpa using ha')
      have H2 : ∀ i ∈ visited ++ [id], i ∈ cat.ids := by
        intro i hi
        rcases List.mem_append.mp hi with hi | hi
        · exact h2 i hi
        · exact (by simpa using hi : i = id) ▸ hid
      have H3 : ∀ i ∈ (rest ++ b.orbiting_bodies.map
          (fun c => (c, (acc.1 + b.local_pos, acc.2 + b.local_speed)))).map Prod.fst,
          i ∈ cat.ids := by
        rw [List.map_append, hmapch]
        intro i hi
        rcases List.mem_append.mp hi with hi | hi
        · exact h3 i (by simp [hi])
        · exact (hchsub i hi).1
      have H4 : ∀ p ∈ cat.bodies, ∀ c ∈ p.orbiting_bodies, p.id ∉ visited ++ [id] →
          c ∉ (visited ++ [id]) ++ (rest ++ b.orbiting_bodies.map
            (fun c => (c, (acc.1 + b.local_pos, acc.2 + b.local_speed)))).map Prod.fst := by
        intro p hp c hc hpd
        have hpnv : p.id ∉ visited := fun h => hpd (List.mem_append_left _ h)
        have hpne : p.id ≠ id := fun h => hpd (List.mem_append_right _ (by simp [h]))
        have hold := h4 p hp c hc hpnv
        simp only [List.map_cons, List.mem_append, List.mem_cons, not_or] at hold
        obtain ⟨hc1, hc2, hc3⟩ := hold
        rw [List.map_append, hmapch]
        intro hmem
        rcases List.mem_append.mp hmem with hm | hm
        · rcases List.mem_append.mp hm with hm' | hm'
          · exact hc1 hm'
          · exact hc2 (by simpa using hm')
        · rcases List.mem_append.mp hm with hm' | hm'
          · exact hc3 hm'
          · exact hpne (by rw [huniq p hp b hbmem c hc hm', hbid])
      have H5 : ∀ i ∈ (rest ++ b.orbiting_bodies.map
          (fun c => (c, (acc.1 + b.local_pos, acc.2 + b.local_speed)))).map Prod.fst,
          Reachable cat i := by
        rw [List.map_append, hmapch]
        intro i hi
        rcases List.mem_append.mp hi with hi | hi
        · exact h5 i (by simp [hi])
        · exact Reachable.child (h5 id (by simp)) hfb hi
      have HFUEL : cat.ids.length ≤ f + (visited ++ [id]).length := by
        simp only [List.length_append, List.length_singleton]
        omega
      obtain ⟨st', l', hrun', hnd', hmem', hq', hval', hframe', hpar'⟩ :=
        ih (rest ++ b.orbiting_bodies.map
            (fun c => (c, (acc.1 + b.local_pos, acc.2 + b.local_speed))))
          (visited ++ [id])
          (storeSet st id (acc.1 + b.local_pos, acc.2 + b.local_speed))
          H1 H2 H3 H4 H5 HFUEL
      have hstep : processQueue cat (f + 1) ((id, acc) :: rest) st = some (st', id :: l') := by
        simp only [processQueue, hfb]
        rw [hrun']
      have hidnl : id ∉ l' := by
        have hdj := (List.nodup_append.mp hnd').2.2
        exact fun h => List.disjoint_left.mp hdj (List.mem_append_right _ (by simp)) h
      have hGid : storeGet st' id = some (acc.1 + b.local_pos, acc.2 + b.local_speed) := by
        rw [hframe' id hidnl, storeGet_set_self]
      refine ⟨st', id :: l', hstep, ?_, ?_, ?_, ?_, ?_, ?_⟩
      · have h := hnd'
        rw [List.append_assoc, List.singleton_append] at h
        exact h
      · intro i hi
        rcases List.mem_cons.mp hi with rfl | hi
        · exact ⟨hid, h5 i (by simp)⟩
        · exact hmem' i hi
      · intro p hp
        rcases List.mem_cons.mp hp with rfl | hp
        · simp
        · exact List.mem_cons_of_mem _ (hq' p (List.mem_append_left _ hp))
      · intro p hp bb hfbb
        rcases List.mem_cons.mp hp with rfl | hp
        · have hbb : b = bb := by
            have h' : cat.find id = some bb := hfbb
            rw [hfb] at h'
            exact Option.some.inj h'
          cases hbb
          exact hGid
        · exact hval' p (List.mem_append_left _ hp) bb hfbb
      · intro i hi
        have hine : i ≠ id := fun h => hi (by simp [h])
        have hinl : i ∉ l' := fun h => hi (List.mem_cons_of_mem _ h)
        rw [hframe' i hinl, storeGet_set_ne st hine]
      · intro i hi bb hfbb c hcc
        rcases List.mem_cons.mp hi with rfl | hi
        · have hbb : b = bb := by
            have h' : cat.find i = some bb := hfbb
            rw [hfb] at h'
            exact Option.some.inj h'
          cases hbb
          have hcq : (c, (acc.1 + b.local_pos, acc.2 + b.local_speed)) ∈
              rest ++ b.orbiting_bodies.map
                (fun c => (c, (acc.1 + b.local_pos, acc.2 + b.local_speed))) :=
            List.mem_append_right _ (List.mem_map.mpr ⟨c, hcc, rfl⟩)
          refine ⟨List.mem_cons_of_mem _ (hq' _ hcq), ?_⟩
          intro cb hcb
          exact ⟨acc.1 + b.local_pos, acc.2 + b.local_speed, hGid, hval' _ hcq cb hcb⟩
        · obtain ⟨hcl, hrest⟩ := hpar' i hi bb hfbb c hcc
          exact ⟨List.mem_cons_of_mem _ hcl, hrest⟩

/-- C2: for every catalog whose parent graph is a tree rooted at the primary
body, `update_global` succeeds and, for every body reachable from the primary
body, the stored world position (velocity) is its parent's world position
(velocity) plus its own parent-frame local vector; the primary body gets the
(0,0,0) accumulator (so its world vectors are its own local vectors), and
equivalently every body's world vectors are the sums of the local vectors
along the path from the primary body (`WorldVal`). -/
theorem update_global_parent_composition (cat : Catalog) (st0 : GlobalStore) (h : IsTree cat) :
    ∃ st l, update_global cat st0 = some (st, l) ∧
      (∀ id, Reachable cat id → id ∈ l) ∧
      (∀ b, cat.find cat.primary_id = some b →
        storeGet st cat.primary_id = some (b.local_pos, b.local_speed)) ∧
      (∀ id b, id ∈ l → cat.find id = some b → ∀ c ∈ b.orbiting_bodies,
        ∀ cb, cat.find c = some cb → ∃ wp wv, storeGet st id = some (wp, wv) ∧
          storeGet st c = some (wp + cb.local_pos, wv + cb.local_speed)) ∧
      (∀ id p v, WorldVal cat id p v → storeGet st id = some (p, v)) := by
  obtain ⟨hnd, hprim, hch, huniq⟩ := h
  obtain ⟨st, l, hrun, hnd', hmem, hq, hval, hframe, hpar⟩ :=
    processQueue_main cat ⟨hnd, hprim, hch, huniq⟩ cat.bodies.length
      [(cat.primary_id, (0, 0))] [] st0
      (by simp)
      (by simp)
      (by intro i hi; rw [(by simpa using hi : i = cat.primary_id)]; exact hprim)
      (by
        intro b hb c hc _
        simp only [List.nil_append, List.map_cons, List.map_nil, List.mem_singleton]
        exact ((hch b hb).2 c hc).2)
      (by intro i hi; rw [(by simpa using hi : i = cat.primary_id)]; exact Reachable.prim)
      (by simp [Catalog.ids])
  have hcomplete : ∀ id, Reachable cat id → id ∈ l := by
    intro id hreach
    induction hreach with
    | prim => exact hq (cat.primary_id, (0, 0)) (by simp)
    | child hp hf hc ih => exact (hpar _ ih _ hf _ hc).1
  have hprimstore : ∀ b, cat.find cat.primary_id = some b →
      storeGet st cat.primary_id = some (b.local_pos, b.local_speed) := by
    intro b hfb
    have := hval (cat.primary_id, (0, 0)) (by simp) b hfb
    simpa using this
  refine ⟨st, l, hrun, hcomplete, hprimstore, ?_, ?_⟩
  · intro id b hl hfb c hc cb hcb
    exact (hpar id hl b hfb c hc).2 cb hcb
  · intro id p v hw
    induction hw with
    | prim hf => exact hprimstore _ hf
    | @child pid c p v pb cb hw hf hc hcf ih =>
      obtain ⟨wp, wv, hwp, hwc⟩ := (hpar pid (hcomplete pid hw.reachable) pb hf c hc).2 cb hcf
      rw [ih] at hwp
      have hpair := Option.some.inj hwp
      have h1 : p = wp := congrArg Prod.fst hpair
      have h2 : v = wv := congrArg Prod.snd hpair
      rw [hwc, ← h1, ← h2]

/-- C9: provided the catalog parent graph is a tree rooted at the primary
body, the world-space composition pass terminates within `cat.bodies.length`
queue pops (each body is enqueued at most once, so the work queue is bounded
by the number of bodies) and processes every body reachable from the primary
body exactly once: the processing log has no duplicates, contains exactly the
reachable bodies, and is no longer than the body list. -/
theorem update_global_terminates_once_each (cat : Catalog) (st0 : GlobalStore) (h : IsTree cat) :
    ∃ st l, update_global cat st0 = some (st, l) ∧
      l.Nodup ∧ l.length ≤ cat.bodies.length ∧
      (∀ id ∈ l, Reachable cat id) ∧
      (∀ id, Reachable cat id → id ∈ l) := by
  obtain ⟨hnd, hprim, hch, huniq⟩ := h
  obtain ⟨st, l, hrun, hnd', hmem, hq, hval, hframe, hpar⟩ :=
    processQueue_main cat ⟨hnd, hprim, hch, huniq⟩ cat.bodies.length
      [(cat.primary_id, (0, 0))] [] st0
      (by simp)
      (by simp)
      (by intro i hi; rw [(by simpa using hi : i = cat.primary_id)]; exact hprim)
      (by
        intro b hb c hc _
        simp only [List.nil_append, List.map_cons, List.map_nil, List.mem_singleton]
        exact ((hch b hb).2 c hc).2)
      (by intro i hi; rw [(by simpa using hi : i = cat.primary_id)]; exact Reachable.prim)
      (by simp [Catalog.ids])
  have hlnd : l.Nodup := by simpa using hnd'
  have hlsub : l ⊆ cat.ids := fun i hi => (hmem i hi).1
  have hlen : l.length ≤ cat.bodies.length := by
    have := (hlnd.subperm hlsub).length_le
    simpa [Catalog.ids] using this
  refine ⟨st, l, hrun, hlnd, hlen, fun i hi => (hmem i hi).2, ?_⟩
  intro id hreach
  induction hreach with
  | prim => exact hq (cat.primary_id, (0, 0)) (by simp)
  | child hp hf hc ih => exact (hpar _ ih _ hf _ hc).1

theorem update_global_parent_composition_witness :
    IsTree catW ∧
      (∃ st l, update_global catW [] = some (st, l) ∧
        (∀ id, Reachable catW id → id ∈ l) ∧
        (∀ b, catW.find catW.primary_id = some b →
          storeGet st catW.primary_id = some (b.local_pos, b.local_speed)) ∧
        (∀ id b, id ∈ l → catW.find id = some b → ∀ c ∈ b.orbiting_bodies,
          ∀ cb, catW.find c = some cb → ∃ wp wv, storeGet st id = some (wp, wv) ∧
            storeGet st c = some (wp + cb.local_pos, wv + cb.local_speed)) ∧
        (∀ id p v, WorldVal catW id p v → storeGet st id = some (p, v))) :=
  ⟨by decide, update_global_parent_composition catW [] (by decide)⟩

theorem update_global_terminates_once_each_witness :
    IsTree catW ∧
      (∃ st l, update_global catW [] = some (st, l) ∧
        l.Nodup ∧ l.length ≤ catW.bodies.length ∧
        (∀ id ∈ l, Reachable catW id) ∧
        (∀ id, Reachable catW id → id ∈ l)) :=
  ⟨by decide, update_global_terminates_once_each catW [] (by decide)⟩

theorem lookup_kinSet_self (kin : KinStore) (e : Entity) (pv : V3 × V3) :
    List.lookup e (kinSet kin e pv) = some pv := by
  simp [kinSet]

theorem lookup_kinSet_ne (kin : KinStore) {e e' : Entity} (h : e' ≠ e) (pv : V3 × V3) :
    List.lookup e' (kinSet kin e pv) = List.lookup e' kin := by
  simp [kinSet, List.lookup_cons, beq_false_of_ne h]

theorem mem_of_lookup_eq {α β : Type} [BEq α] [LawfulBEq α] :
    ∀ {l : List (α × β)} {a : α} {b : β}, List.lookup a l = some b → (a, b) ∈ l := by
  intro l
  induction l with
  | nil => intro a b h; simp [List.lookup] at h
  | cons p rest ih =>
    intro a b h
    rcases p with ⟨k, v⟩
    rw [List.lookup_cons] at h
    by_cases hk : a = k
    · subst hk
      simp only [beq_self_eq_true] at h
      have hvb : v = b := by simpa using h
      simp [hvb]
    · simp only [beq_false_of_ne hk] at h
      exact List.mem_cons_of_mem _ (ih h)

theorem applyEntries_spec (ships : ShipRegistry)
    (hinj : ∀ p1 ∈ ships, ∀ p2 ∈ ships, p1.2 = p2.2 → p1.1 = p2.1) :
    ∀ (entries : List (String × V3 × V3)) (kin : KinStore),
      (∀ p ∈ ships, (List.lookup p.2 kin).isSome = true) →
      (entries.map (·.1)).Nodup →
      ∃ kin', applyEntries ships kin entries = some kin' ∧
        (∀ id p v ent, (id, p, v) ∈ entries → List.lookup id ships = some ent →
          List.lookup ent kin' = some (p, v)) ∧
        (∀ ent, (∀ id p v, (id, p, v) ∈ entries → List.lookup id ships ≠ some ent) →
          List.lookup ent kin' = List.lookup ent kin) := by
  intro entries
  induction entries with
  | nil =>
    intro kin _ _
    exact ⟨kin, rfl, by simp, fun _ _ => rfl⟩
  | cons e rest ih =>
    rcases e with ⟨id, p, v⟩
    intro kin hwf hnd
    have hndr : (rest.map (·.1)).Nodup := (List.nodup_cons.mp (by simpa using hnd)).2
    have hidnr : id ∉ rest.map (·.1) := (List.nodup_cons.mp (by simpa using hnd)).1
    cases hship : List.lookup id ships with
    | none =>
      have happly : applyEntry ships kin (id, p, v) = some kin := by
        simp [applyEntry, hship]
      obtain ⟨kin', hrun, hhit, hframe⟩ := ih kin hwf hndr
      refine ⟨kin', ?_, ?_, ?_⟩
      · rw [applyEntries, happly]
        exact hrun
      · intro id' p' v' ent hmem hlk
        rcases List.mem_cons.mp hmem with heq | hmem'
        · exfalso
          have : id' = id := congrArg (·.1) heq
          rw [this, hship] at hlk
          exact Option.noConfusion hlk
        · exact hhit id' p' v' ent hmem' hlk
      · intro ent hnone
        exact hframe ent (fun id' p' v' hm => hnone id' p' v' (List.mem_cons_of_mem _ hm))
    | some ent0 =>
      have hkin0 : (List.lookup ent0 kin).isSome = true :=
        hwf (id, ent0) (mem_of_lookup_eq hship)
      obtain ⟨w0, hw0⟩ := Option.isSome_iff_exists.mp hkin0
      have happly : applyEntry ships kin (id, p, v) = some (kinSet kin ent0 (p, v)) := by
        simp [applyEntry, hship, hw0]
      have hwf1 : ∀ q ∈ ships, (List.lookup q.2 (kinSet kin ent0 (p, v))).isSome = true := by
        intro q hq
        by_cases hqe : q.2 = ent0
        · rw [hqe, lookup_kinSet_self]; rfl
        · rw [lookup_kinSet_ne kin hqe]
          exact hwf q hq
      obtain ⟨kin', hrun, hhit, hframe⟩ := ih (kinSet kin ent0 (p, v)) hwf1 hndr
      have hrestmiss : ∀ id' p' v', (id', p', v') ∈ rest → List.lookup id' ships ≠ some ent0 := by
        intro id' p' v' hm hlk
        have : id' = id :=
          hinj (id', ent0) (mem_of_lookup_eq hlk) (id, ent0) (mem_of_lookup_eq hship) rfl
        exact hidnr (this ▸ List.mem_map.mpr ⟨(id', p', v'), hm, rfl⟩)
      refine ⟨kin', ?_, ?_, ?_⟩
      · rw [applyEntries, happly]
        exact hrun
      · intro id' p' v' ent hmem hlk
        rcases List.mem_cons.mp hmem with heq | hmem'
        · have hid' : id' = id := congrArg (·.1) heq
          have hp' : p' = p := congrArg (·.2.1) heq
          have hv' : v' = v := congrArg (·.2.2) heq
          subst hid'; subst hp'; subst hv'
          rw [hship] at hlk
          have hent : ent = ent0 := (Option.some.inj hlk).symm
          subst hent
          rw [hframe ent (hrestmiss), lookup_kinSet_self]
        · exact hhit id' p' v' ent hmem' hlk
      · intro ent hnone
        have hne : ent ≠ ent0 := by
          intro h
          exact hnone id p v (List.mem_cons_self _ _) (h ▸ hship)
        rw [hframe ent (fun id' p' v' hm => hnone id' p' v' (List.mem_cons_of_mem _ hm)),
          lookup_kinSet_ne kin hne]

/-- C4: when a replica processes a `PeriodicUpdate` (for a well-formed local
state: registered entities are spawned and handles are not shared, and the
message carries each ship id at most once, as the server builds it), the
processing succeeds with no error; for every entry whose id is in the local
ship registry, that ship's position and velocity are overwritten with the
received values; an entry whose id is absent is skipped silently: every ship
entity not named by the message keeps its state unchanged, and the registry
itself is untouched.  Since the theorem holds for every state `s`, a later
`PeriodicUpdate` arriving after the ship has been created (its id then being
in the registry) is applied normally by the overwrite clause. -/
theorem periodic_update_reconciliation (s : ClientState) (m : PeriodicUpdateMsg)
    (hwf : ∀ p ∈ s.ships, (List.lookup p.2 s.kin).isSome = true)
    (hinj : ∀ p1 ∈ s.ships, ∀ p2 ∈ s.ships, p1.2 = p2.2 → p1.1 = p2.1)
    (hnd : (m.ships.map (·.1)).Nodup) :
    ∃ s', handleServerMessage s (ServerMessage.PeriodicUpdate m) = some s' ∧
      s'.simtick = m.time ∧ s'.ships = s.ships ∧
      (∀ id p v ent, (id, p, v) ∈ m.ships → List.lookup id s.ships = some ent →
        List.lookup ent s'.kin = some (p, v)) ∧
      (∀ ent, (∀ id p v, (id, p, v) ∈ m.ships → List.lookup id s.ships ≠ some ent) →
        List.lookup ent s'.kin = List.lookup ent s.kin) := by
  obtain ⟨kin', hrun, hhit, hframe⟩ := applyEntries_spec s.ships hinj m.ships s.kin hwf hnd
  refine ⟨{ s with simtick := m.time, kin := kin' }, ?_, rfl, rfl, hhit, hframe⟩
  simp [handleServerMessage, hrun]

theorem periodic_update_reconciliation_witness :
    ((∀ p ∈ clientW.ships, (List.lookup p.2 clientW.kin).isSome = true) ∧
      (∀ p1 ∈ clientW.ships, ∀ p2 ∈ clientW.ships, p1.2 = p2.2 → p1.1 = p2.1) ∧
      (periodicW.ships.map (·.1)).Nodup) ∧
    (∃ s', handleServerMessage clientW (ServerMessage.PeriodicUpdate periodicW) = some s' ∧
      s'.simtick = periodicW.time ∧ s'.ships = clientW.ships ∧
      (∀ id p v ent, (id, p, v) ∈ periodicW.ships → List.lookup id clientW.ships = some ent →
        List.lookup ent s'.kin = some (p, v)) ∧
      (∀ ent, (∀ id p v, (id, p, v) ∈ periodicW.ships →
          List.lookup id clientW.ships ≠ some ent) →
        List.lookup ent s'.kin = List.lookup ent clientW.kin)) :=
  ⟨⟨by decide, by decide, by decide⟩,
    periodic_update_reconciliation clientW periodicW (by decide) (by decide) (by decide)⟩

/-- C6 counterexample: the tick counter CAN decrease across a
message-handling step: a replica at tick 5 that receives a `PeriodicUpdate`
(or `UpdateTime`) carrying tick 3 — possible because the periodic channel is
unreliable and unordered — overwrites its counter with 3 < 5. -/
theorem message_handling_tick_decreases :
    handleServerMessage clientFive
        (ServerMessage.PeriodicUpdate { time := 3, ships := [] }) =
      some { clientFive with simtick := 3 } ∧
      (3 : ℕ) < clientFive.simtick := by
  exact ⟨rfl, by decide⟩

/-- C6 (amended): scheduler steps never decrease the tick counter — a running
step increments it by exactly 1 and a paused step leaves it unchanged, so any
number of paused scheduler steps leaves simulated time tick × step unchanged.
(Message handling, excluded by the amendment, overwrites the replica's
counter with the received tick, which the counterexample shows can decrease
it.) -/
theorem scheduler_tick_monotone (toggle_time : Bool) (t step n : ℕ) :
    t ≤ schedulerStep toggle_time t ∧
    schedulerStep true t = t + 1 ∧
    (schedulerStep false)^[n] t = t ∧
    simulatedTime ((schedulerStep false)^[n] t) step = simulatedTime t step := by
  have hfix : (schedulerStep false)^[n] t = t :=
    Function.iterate_fixed (by simp [schedulerStep]) n
  refine ⟨?_, by simp [schedulerStep], hfix, by rw [hfix]⟩
  by_cases h : toggle_time <;> simp [schedulerStep, h]

theorem foldl_push_eq_map {α β : Type} (f : α → β) :
    ∀ (l : List α) (acc : List β), l.foldl (fun a s => a ++ [f s]) acc = acc ++ l.map f := by
  intro l
  induction l with
  | nil => intro acc; simp
  | cons x rest ih =>
    intro acc
    rw [List.foldl_cons, ih, List.map_cons]
    simp

/-- C5: whenever the fixed wall-clock broadcast timer fires, the server sends
exactly one `PeriodicUpdate` carrying the current simulation tick and, for
every ship in the simulation, that ship's `(id, position, velocity)`; the
send happens on channel 1, which the channel configuration declares
unreliable (so the message is sent once, with no retry mechanism); when the
timer has not fired, nothing is sent. -/
theorem send_periodic_updates_shape (timerFinished : Bool) (tick : ℕ)
    (ships : List (ShipInfo × V3 × V3)) :
    sendPeriodicUpdates timerFinished tick ships =
      (if timerFinished then
        [(ServerChannelName.channelId ServerChannelName.PeriodicUpdates,
          ServerMessage.PeriodicUpdate
            { time := tick, ships := ships.map (fun s => (s.1.id, s.2.1, s.2.2)) })]
      else []) ∧
    serverChannelsConfiguration.get?
        (ServerChannelName.channelId ServerChannelName.PeriodicUpdates) =
      some ChannelKind.Unreliable ∧
    (sendPeriodicUpdates timerFinished tick ships).length ≤ 1 := by
  have hships : ships.foldl (fun acc s => acc ++ [(s.1.id, s.2.1, s.2.2)]) [] =
      ships.map (fun s => (s.1.id, s.2.1, s.2.2)) := by
    rw [foldl_push_eq_map]
    simp
  refine ⟨?_, rfl, ?_⟩
  · cases timerFinished
    · rfl
    · simp [sendPeriodicUpdates, hships]
  · cases timerFinished
    · simp [sendPeriodicUpdates]
    · simp [sendPeriodicUpdates]

/-- C8: ship creation is idempotent on the ship registry: for both creation
paths (a network `CreateShipMsg` on the server and a local
`ShipEvent::Create`), when the ship id is already a key of the registry, the
registry is left entirely unchanged and the previously registered entity
handle is kept, never overwritten by the fresh entity. -/
theorem ship_creation_idempotent (ships : ShipRegistry) (kin : KinStore)
    (msg : CreateShipMsg) (info : ShipInfo) (fresh1 fresh2 e1 e2 : Entity)
    (h1 : List.lookup msg.info.id ships = some e1)
    (h2 : List.lookup info.id ships = some e2) :
    (handleCreateShipMsg ships kin msg fresh1).1 = ships ∧
    List.lookup msg.info.id (handleCreateShipMsg ships kin msg fresh1).1 = some e1 ∧
    (handleShipEventCreate ships kin info fresh2).1 = ships ∧
    List.lookup info.id (handleShipEventCreate ships kin info fresh2).1 = some e2 := by
  have ha : entryOrInsert ships msg.info.id fresh1 = ships := by
    simp [entryOrInsert, h1]
  have hb : entryOrInsert ships info.id fresh2 = ships := by
    simp [entryOrInsert, h2]
  exact ⟨ha, by simpa [handleCreateShipMsg, ha] using h1, hb,
    by simpa [handleShipEventCreate, hb] using h2⟩

theorem ship_creation_idempotent_witness :
    (List.lookup shipInfoW.id [("s", (4 : Entity))] = some 4 ∧
      List.lookup shipInfoW.id [("s", (4 : Entity))] = some 4) ∧
    ((handleCreateShipMsg [("s", 4)] []
        { info := shipInfoW, acceleration := 0, pos := (2, 2, 2), velocity := 0 } 9).1 =
      [("s", 4)] ∧
    List.lookup shipInfoW.id (handleCreateShipMsg [("s", 4)] []
        { info := shipInfoW, acceleration := 0, pos := (2, 2, 2), velocity := 0 } 9).1 =
      some 4 ∧
    (handleShipEventCreate [("s", 4)] [] shipInfoW 9).1 = [("s", 4)] ∧
    List.lookup shipInfoW.id (handleShipEventCreate [("s", 4)] [] shipInfoW 9).1 = some 4) :=
  ⟨⟨by decide, by decide⟩,
    ship_creation_idempotent [("s", 4)] []
      { info := shipInfoW, acceleration := 0, pos := (2, 2, 2), velocity := 0 }
      shipInfoW 9 9 4 4 (by decide) (by decide)⟩

/-- C7 counterexample: for `time_scale`, a numeric argument that fails to
parse does NOT leave the step-size field at 0: with current step size 5 and
argument "abc" the error is reported and the field keeps the value 5. -/
theorem time_scale_parse_failure_keeps_value :
    parseNatU64 "abc" = none ∧
      (setTimeScale 5 ["abc"]).1 = 5 ∧
      (setTimeScale 5 ["abc"]).1 ≠ 0 ∧
      "timescale is a u64, Error" ∈ (setTimeScale 5 ["abc"]).2 := by
  refine ⟨by decide, by decide, by decide, by decide⟩

/-- C7 (amended): a malformed numeric argument is reported to the console and
the process continues for both commands, but only `test_set_pos` defaults the
offending field to 0 — `time_scale` keeps the previous step size.  For
`test_set_pos` with four tokens, an id naming a registered ship whose entity
is spawned, the command succeeds (no abort) and writes each coordinate as its
token's parse, failures replaced by 0, reporting each failure. -/
theorem console_numeric_arg_failure (prev : ℕ) (t : String) (targs : List String)
    (ships : ShipRegistry) (store : PosStore) (a0 a1 a2 a3 : String) (ent : Entity) (w : V3)
    (hfail : parseNatU64 t = none)
    (hidl : List.lookup a0 ships = some ent)
    (hw : List.lookup ent store = some w) :
    (setTimeScale prev (t :: targs)).1 = prev ∧
    "timescale is a u64, Error" ∈ (setTimeScale prev (t :: targs)).2 ∧
    (∃ st' out, testSetPos ships store [a0, a1, a2, a3] = some (st', out) ∧
      List.lookup ent st' =
        some ((parseF64 a1).getD 0, (parseF64 a2).getD 0, (parseF64 a3).getD 0) ∧
      (parseF64 a1 = none → "err" ∈ out) ∧
      (parseF64 a2 = none → "err" ∈ out) ∧
      (parseF64 a3 = none → "err" ∈ out)) := by
  refine ⟨by simp [setTimeScale, hfail], by simp [setTimeScale, hfail], ?_⟩
  rcases hq1 : parseF64 a1 with _ | q1
  · rcases hq2 : parseF64 a2 with _ | q2
    · rcases hq3 : parseF64 a3 with _ | q3
      · exact ⟨posSet store ent (0, 0, 0), ["err", "err", "err"],
          by simp [testSetPos, hidl, hw, hq1, hq2, hq3],
          by simp [posSet, List.lookup_cons, hq1, hq2, hq3], by simp, by simp, by simp⟩
      · exact ⟨posSet store ent (0, 0, q3), ["err", "err"],
          by simp [testSetPos, hidl, hw, hq1, hq2, hq3],
          by simp [posSet, List.lookup_cons, hq1, hq2, hq3], by simp, by simp, by simp [hq3]⟩
    · rcases hq3 : parseF64 a3 with _ | q3
      · exact ⟨posSet store ent (0, q2, 0), ["err", "err"],
          by simp [testSetPos, hidl, hw, hq1, hq2, hq3],
          by simp [posSet, List.lookup_cons, hq1, hq2, hq3], by simp, by simp [hq2], by simp⟩
      · exact ⟨posSet store ent (0, q2, q3), ["err"],
          by simp [testSetPos, hidl, hw, hq1, hq2, hq3],
          by simp [posSet, List.lookup_cons, hq1, hq2, hq3],
          by simp, by simp [hq2], by simp [hq3]⟩
  · rcases hq2 : parseF64 a2 with _ | q2
    · rcases hq3 : parseF64 a3 with _ | q3
      · exact ⟨posSet store ent (q1, 0, 0), ["err", "err"],
          by simp [testSetPos, hidl, hw, hq1, hq2, hq3],
          by simp [posSet, List.lookup_cons, hq1, hq2, hq3], by simp [hq1], by simp, by simp⟩
      · exact ⟨posSet store ent (q1, 0, q3), ["err"],
          by simp [testSetPos, hidl, hw, hq1, hq2, hq3],
          by simp [posSet, List.lookup_cons, hq1, hq2, hq3],
          by simp [hq1], by simp, by simp [hq3]⟩
    · rcases hq3 : parseF64 a3 with _ | q3
      · exact ⟨posSet store ent (q1, q2, 0), ["err"],
          by simp [testSetPos, hidl, hw, hq1, hq2, hq3],
          by simp [posSet, List.lookup_cons, hq1, hq2, hq3],
          by simp [hq1], by simp [hq2], by simp⟩
      · exact ⟨posSet store ent (q1, q2, q3), [],
          by simp [testSetPos, hidl, hw, hq1, hq2, hq3],
          by simp [posSet, List.lookup_cons, hq1, hq2, hq3],
          by simp [hq1], by simp [hq2], by simp [hq3]⟩

theorem console_numeric_arg_failure_witness :
    (parseNatU64 "abc" = none ∧ List.lookup "s1" shipsW = some 2 ∧
      List.lookup 2 posStoreW = some (0, 0, 0)) ∧
    ((setTimeScale 5 ["abc"]).1 = 5 ∧
      "timescale is a u64, Error" ∈ (setTimeScale 5 ["abc"]).2 ∧
      (∃ st' out, testSetPos shipsW posStoreW ["s1", "x", "1", "2"] = some (st', out) ∧
        List.lookup 2 st' =
          some ((parseF64 "x").getD 0, (parseF64 "1").getD 0, (parseF64 "2").getD 0) ∧
        (parseF64 "x" = none → "err" ∈ out) ∧
        (parseF64 "1" = none → "err" ∈ out) ∧
        (parseF64 "2" = none → "err" ∈ out))) :=
  ⟨⟨by decide, by decide, by decide⟩,
    console_numeric_arg_failure 5 "abc" [] shipsW posStoreW "s1" "x" "1" "2" 2 (0, 0, 0)
      (by decide) (by decide) (by decide)⟩

theorem maxByTotalCmp_go (l : List ℚ) :
    ∀ m : ℚ, ∃ r, l.foldl (fun acc x =>
        match acc with
        | none => some x
        | some m => if x < m then some m else some x) (some m) = some r ∧
      (r = m ∨ r ∈ l) ∧ m ≤ r ∧ ∀ x ∈ l, x ≤ r := by
  induction l with
  | nil => intro m; exact ⟨m, rfl, Or.inl rfl, le_refl m, by simp⟩
  | cons a rest ih =>
    intro m
    rw [List.foldl_cons]
    by_cases h : a < m
    · obtain ⟨r, hr, hmem, hle, hall⟩ := ih m
      refine ⟨r, by simpa [h] using hr, ?_, hle, ?_⟩
      · rcases hmem with hm | hm
        · exact Or.inl hm
        · exact Or.inr (List.mem_cons_of_mem _ hm)
      · intro x hx
        rcases List.mem_cons.mp hx with rfl | hx
        · exact le_trans (le_of_lt h) hle
        · exact hall x hx
    · obtain ⟨r, hr, hmem, hle, hall⟩ := ih a
      refine ⟨r, by simpa [h] using hr, ?_, ?_, ?_⟩
      · rcases hmem with hm | hm
        · exact Or.inr (hm ▸ List.mem_cons_self a rest)
        · exact Or.inr (List.mem_cons_of_mem _ hm)
      · exact le_trans (not_lt.mp h) hle
      · intro x hx
        rcases List.mem_cons.mp hx with rfl | hx
        · exact hle
        · exact hall x hx

/-- C10: computing the system size requires at least one loaded body: with no
bodies, `max_by(..).unwrap()` takes the maximum of an empty set and panics
(modelled as `none`); with at least one body loaded, it produces the greatest
distance of any body's world position from the coordinate origin. -/
theorem insert_system_size_max (env : NumEnv) (positions : List V3)
    (h : positions ≠ []) :
    insert_system_size env [] = none ∧
    ∃ r, insert_system_size env positions = some r ∧
      r ∈ positions.map (posLength env) ∧
      ∀ d ∈ positions.map (posLength env), d ≤ r := by
  refine ⟨rfl, ?_⟩
  match positions, h with
  | p :: rest, _ =>
    obtain ⟨r, hr, hmem, hle, hall⟩ := maxByTotalCmp_go (rest.map (posLength env)) (posLength env p)
    refine ⟨r, ?_, ?_, ?_⟩
    · simpa [insert_system_size, maxByTotalCmp] using hr
    · rcases hmem with hm | hm
      · simp [hm]
      · simp only [List.map_cons, List.mem_cons]
        exact Or.inr hm
    · intro d hd
      rw [List.map_cons] at hd
      rcases List.mem_cons.mp hd with rfl | hd'
      · exact hle
      · exact hall d hd'

theorem insert_system_size_max_witness :
    ([((3 : ℚ), (0 : ℚ), (0 : ℚ))] ≠ ([] : List V3)) ∧
    (insert_system_size envW [] = none ∧
      ∃ r, insert_system_size envW [((3 : ℚ), (0 : ℚ), (0 : ℚ))] = some r ∧
        r ∈ ([((3 : ℚ), (0 : ℚ), (0 : ℚ))] : List V3).map (posLength envW) ∧
        ∀ d ∈ ([((3 : ℚ), (0 : ℚ), (0 : ℚ))] : List V3).map (posLength envW), d ≤ r) :=
  ⟨by decide, insert_system_size_max envW [((3 : ℚ), (0 : ℚ), (0 : ℚ))] (by decide)⟩
